import Mathlib

/-!
Shallow embedding of the HelioSaver header-transcoding and match-validation
pipeline (`src/heliosaver/fits.py`, `src/heliosaver/png.py`).

Conventions of the embedding:
* Python strings are `List Char`.
* Python floats are modelled as exact rationals (`Rat`): every float literal
  appearing in the code (`1.0e9`, tolerances, parsed decimals) is exactly
  representable, and the time deltas compared are whole-second integers far
  below 2^53, so rational arithmetic agrees with the IEEE arithmetic the
  code performs on every value the theorems touch.
* `str.strip` is modelled over the ASCII whitespace characters; Python also
  strips a handful of rare Unicode space characters, none of which occur in
  any input the development evaluates.
* `str.upper` / `str.lower` are modelled by the ASCII case maps; Python also
  case-maps non-ASCII cased letters, which stay non-ASCII either way.
-/

/-- Python `str.isspace` restricted to the ASCII whitespace characters
(space, tab, newline, carriage return, vertical tab, form feed). -/
def isPySpace (c : Char) : Bool :=
  c = ' ' || c = '\t' || c = '\n' || c = '\r' || c = '\x0b' || c = '\x0c'

/-- Drop elements satisfying `p` from the end of a list. -/
def dropRightWhile (p : Char → Bool) (s : List Char) : List Char :=
  (s.reverse.dropWhile p).reverse

/-- Python `str.strip()` (no argument): remove whitespace from both ends. -/
def pyStrip (s : List Char) : List Char :=
  dropRightWhile isPySpace (s.dropWhile isPySpace)

/-- Python `str.upper()` on one character (ASCII case map).  Python also
upper-maps non-ASCII cased letters (`é` to `É`); the divergence is
confined to non-ASCII characters, which are non-ASCII on both sides — the
only property of such characters this development ever uses. -/
def pyUpperChar (c : Char) : Char := c.toUpper

/-- Python `str.upper()` (ASCII case map; see the module docstring). -/
def pyUpper (s : List Char) : List Char := s.map pyUpperChar

/-- Python `str.lower()` (ASCII case map; see the module docstring). -/
def pyLower (s : List Char) : List Char := s.map Char.toLower

/-- Every character is ASCII (codepoint below 128). -/
def allAscii (s : List Char) : Bool := s.all (fun c => c.toNat < 128)

/-- No character is an ASCII lowercase letter. -/
def noAsciiLower (s : List Char) : Bool := s.all (fun c => !(c.isLower))

/-- Decimal digit character for `i < 10`, as produced by Python string
formatting of a single digit. -/
def digitChar (i : Nat) : Char := Char.ofNat (48 + i)

/-- A FITS-storable primitive as produced by `_parse_fits_value`:
a Python `int`, a Python `float` (modelled as an exact rational), or a
string. -/
inductive FitsValue where
  | int (n : Int)
  | float (q : Rat)
  | text (s : List Char)
deriving DecidableEq

/-- `_sanitize_fits_value` from `fits.py`: make a value FITS-card friendly.
`if not value: return "N/A"`; otherwise replace newlines and carriage
returns with spaces, strip, drop non-ASCII characters, keep the first 68
characters. -/
def sanitize_fits_value (value : Option (List Char)) : List Char :=
  match value with
  | none => "N/A".data
  | some v =>
    if v = [] then "N/A".data
    else
      ((pyStrip (v.map (fun c => if c = '\n' || c = '\r' then ' ' else c))).filter
        (fun c => c.toNat < 128)).take 68

/-- A character a Python numeric literal's digit run may contain: a decimal
digit or a grouping underscore. -/
def isDigitOrUnd (c : Char) : Bool := c.isDigit || c = '_'

/-- Tail validity of a digit run after its first digit: underscores only
singly and strictly between digits. -/
def undValidAux : List Char → Bool
  | [] => true
  | '_' :: c :: rest => c.isDigit && undValidAux rest
  | ['_'] => false
  | c :: rest => c.isDigit && undValidAux rest

/-- Python's digit-run rule for `int()` / `float()` literals: nonempty,
starts and ends with a digit, underscores only singly between digits
("1_0" parses; "_1", "1_", "1__0" do not). -/
def undValid : List Char → Bool
  | [] => false
  | c :: rest => c.isDigit && undValidAux rest

/-- Numeric value of a digit run, ignoring grouping underscores. -/
def digitsVal (s : List Char) : Nat :=
  s.foldl (fun a c => if c = '_' then a else a * 10 + (c.toNat - 48)) 0

/-- Number of actual digits in a digit run (underscores excluded). -/
def digitCount (s : List Char) : Nat := (s.filter Char.isDigit).length

/-- Leading optional sign of a Python numeric literal: `+`, `-`, or none. -/
def parseSign : List Char → Int × List Char
  | '+' :: rest => (1, rest)
  | '-' :: rest => (-1, rest)
  | s => (1, s)

/-- Python `int(s)` on an already-stripped string: optional sign followed by
a valid digit run consuming the whole input. -/
def pyParseInt (s : List Char) : Option Int :=
  let (sg, r0) := parseSign s
  let (ds, r1) := r0.span isDigitOrUnd
  if undValid ds && r1 = [] then some (sg * (digitsVal ds : Int)) else none

/-- Mantissa of a Python float literal: digits, optionally a point and more
digits (at least one digit overall).  Returns the digits' value, the number
of fractional digits, and the rest of the input. -/
def floatMantissa (s : List Char) : Option (Nat × Nat × List Char) :=
  let (ip, r1) := s.span isDigitOrUnd
  if ip = [] then
    match r1 with
    | '.' :: r2 =>
      let (fp, r3) := r2.span isDigitOrUnd
      if undValid fp then some (digitsVal fp, digitCount fp, r3) else none
    | _ => none
  else if undValid ip then
    match r1 with
    | '.' :: r2 =>
      let (fp, r3) := r2.span isDigitOrUnd
      if fp = [] then some (digitsVal ip, 0, r3)
      else if undValid fp then
        some (digitsVal ip * 10 ^ digitCount fp + digitsVal fp, digitCount fp, r3)
      else none
    | _ => some (digitsVal ip, 0, r1)
  else none

/-- Discrete part of the Python `float(s)` grammar on an already-stripped
string: sign, mantissa, optional decimal exponent, whole input consumed.
Returns (signed mantissa digits, number of fractional digits, exponent).
The word forms `inf`/`infinity`/`nan` are omitted: every string reaching
the float branch of `_parse_fits_value` contains a `.` or an `e`, and no
such string matches those words. -/
def floatParts (s : List Char) : Option (Int × Nat × Int) :=
  let sg := (parseSign s).1
  let r0 := (parseSign s).2
  match floatMantissa r0 with
  | none => none
  | some (num, fracLen, rest) =>
    match rest with
    | [] => some (sg * (num : Int), fracLen, 0)
    | e :: r1 =>
      if e = 'e' || e = 'E' then
        let esg := (parseSign r1).1
        let r2 := (parseSign r1).2
        let ed := (r2.span isDigitOrUnd).1
        let r3 := (r2.span isDigitOrUnd).2
        if undValid ed && r3 = [] then
          some (sg * (num : Int), fracLen, esg * (digitsVal ed : Int))
        else none
      else none

/-- Exact rational value of a parsed float literal. -/
def ratOfParts (m : Int) (fracLen : Nat) (e : Int) : Rat :=
  (m : Rat) / (10 : Rat) ^ fracLen * (10 : Rat) ^ e

/-- Python `float(s)` on an already-stripped string, with exact rational
semantics (see the module docstring). -/
def pyParseFloat (s : List Char) : Option Rat :=
  (floatParts s).map (fun p => ratOfParts p.1 p.2.1 p.2.2)

/-- `_parse_fits_value` from `fits.py`: convert XML text into a
FITS-storable primitive.  `None` becomes the string `"N/A"`; sentinel
tokens are substituted before any numeric parse; a string containing `.`
or `e`/`E` attempts a float parse, otherwise an int parse; a failed
numeric parse falls back to the sanitized text. -/
def parse_fits_value (value : Option (List Char)) : FitsValue :=
  match value with
  | none => .text "N/A".data
  | some v =>
    let s := pyStrip v
    let lo := pyLower s
    if lo = "nan".data || lo = "null".data || lo = "n/a".data || lo = [] then .int 0
    else if lo = "inf".data || lo = "+inf".data then .float 1000000000
    else if lo = "-inf".data then .float (-1000000000)
    else if s.contains '.' || (pyLower s).contains 'e' then
      match pyParseFloat s with
      | some q => .float q
      | none => .text (sanitize_fits_value (some s))
    else
      match pyParseInt s with
      | some n => .int n
      | none => .text (sanitize_fits_value (some s))

/-- Membership test of an insertion-ordered string-keyed mapping (both the
`fits.Header` record and the Python result dicts behave this way). -/
def dictHas {β : Type} (l : List (List Char × β)) (k : List Char) : Bool :=
  l.any (fun p => p.1 = k)

/-- Assignment: overwrite the entry in place when the key is present
(keeping its position), append otherwise. -/
def dictSet {β : Type} : List (List Char × β) → List Char → β → List (List Char × β)
  | [], k, v => [(k, v)]
  | a :: as, k, v => if a.1 = k then (k, v) :: as else a :: dictSet as k v

/-- Lookup of the first (and, under the uniqueness invariant, only) pair
bound to a key. -/
def dictGet {β : Type} (l : List (List Char × β)) (k : List Char) : Option β :=
  match l.find? (fun p => p.1 = k) with
  | some p => some p.2
  | none => none

/-- The FITS header record: an insertion-ordered mapping from keyword to
value, modelling `astropy.io.fits.Header` as used by
`header_xml_to_fits_header` (membership test, insert-or-overwrite
assignment, insertion order preserved).  The structure itself accepts any
key; astropy's keyword validation — `Card.keyword` raises `ValueError`
for unacceptable keywords — is modelled separately by `keywordLegal` and
the checked transcoder `header_xml_to_fits_headerChecked` below, which
raise exactly where the assignment `hdr[key] = val` would. -/
structure Header where
  cards : List (List Char × FitsValue)
deriving DecidableEq

/-- Keys of the record, in insertion order. -/
def Header.keys (h : Header) : List (List Char) := h.cards.map Prod.fst

/-- `key in hdr`. -/
def Header.hasKey (h : Header) (k : List Char) : Bool := dictHas h.cards k

/-- `hdr[key] = val`: the semantics of `fits.Header.__setitem__` for
ordinary keywords. -/
def Header.set (h : Header) (k : List Char) (v : FitsValue) : Header :=
  ⟨dictSet h.cards k v⟩

/-- A parsed markup element: tag name, optional text content (the character
data before the first child, `None` when absent — `ElementTree` semantics),
and child elements. -/
inductive Elem where
  | mk (tag : List Char) (text : Option (List Char)) (children : List Elem)

/-- Tag of an element. -/
def Elem.tag : Elem → List Char
  | .mk t _ _ => t

/-- Text of an element. -/
def Elem.text : Elem → Option (List Char)
  | .mk _ x _ => x

/-- Children of an element. -/
def Elem.children : Elem → List Elem
  | .mk _ _ c => c

mutual

/-- `root.iter()`: all elements in document order — depth-first pre-order,
the root included. -/
def Elem.iterList : Elem → List Elem
  | .mk t x cs => .mk t x cs :: iterListAll cs

/-- Pre-order traversal of a forest of elements. -/
def iterListAll : List Elem → List Elem
  | [] => []
  | e :: es => e.iterList ++ iterListAll es

end

/-- Candidate key of an element: `element.tag.upper().strip()[:8]`. -/
def elemKey (e : Elem) : List Char := (pyStrip (pyUpper e.tag)).take 8

/-- Digit-suffixed collision variant `f"{key[:7]}{i}"`. -/
def keyVariant (k : List Char) (i : Nat) : List Char := k.take 7 ++ [digitChar i]

/-- Loop body of `header_xml_to_fits_header` for one element: derive the
candidate key, coerce the text, probe digit variants `0`–`9` on a
collision (`key` is left unchanged when all ten variants are taken, so the
final assignment overwrites the colliding card), then `hdr[key] = val`. -/
def processElem (hdr : Header) (e : Elem) : Header :=
  let key := elemKey e
  let val := parse_fits_value e.text
  let key :=
    if hdr.hasKey key then
      match (List.range 10).find? (fun i => !hdr.hasKey (keyVariant key i)) with
      | some i => keyVariant key i
      | none => key
    else key
  hdr.set key val

/-- `header_xml_to_fits_header` from `fits.py`, on the parsed tree: fold
the per-element step over the document-order traversal. -/
def header_xml_to_fits_header (root : Elem) : Header :=
  root.iterList.foldl processElem ⟨[]⟩

/-- A parsed wall-clock instant, implicitly UTC, whole-second resolution
(the fields of the `datetime` objects built by `_iso_z_to_dt` and
`_hv_dt_to_dt`). -/
structure DT where
  year : Nat
  month : Nat
  day : Nat
  hour : Nat
  minute : Nat
  second : Nat
deriving DecidableEq

/-- Value of one decimal digit character. -/
def charDigitVal (c : Char) : Option Nat :=
  if c.isDigit then some (c.toNat - 48) else none

/-- Numeric field of a `strptime` directive: try the two-digit
alternatives of the directive's regex first, then the one-digit
alternative.  `two` and `one` are the value sets the regex alternatives
denote.  (CPython's `_strptime` patterns put the two-digit alternatives
first; because every literal in the two formats used here is a non-digit,
the greedy choice never needs regex backtracking.) -/
def parse2or1 (two one : Nat → Bool) : List Char → Option (Nat × List Char)
  | c1 :: c2 :: rest =>
    match charDigitVal c1, charDigitVal c2 with
    | some d1, some d2 =>
      if two (10 * d1 + d2) then some (10 * d1 + d2, rest)
      else if one d1 then some (d1, c2 :: rest)
      else none
    | some d1, none => if one d1 then some (d1, c2 :: rest) else none
    | none, _ => none
  | [c1] =>
    match charDigitVal c1 with
    | some d1 => if one d1 then some (d1, []) else none
    | none => none
  | [] => none

/-- Exactly four digits: the `%Y` directive (regex `\d\d\d\d`). -/
def parseY4 : List Char → Option (Nat × List Char)
  | c1 :: c2 :: c3 :: c4 :: rest =>
    match charDigitVal c1, charDigitVal c2, charDigitVal c3, charDigitVal c4 with
    | some a, some b, some c, some d => some (a * 1000 + b * 100 + c * 10 + d, rest)
    | _, _, _, _ => none
  | _ => none

/-- An exact literal character of the format (`strptime` compiles the
format with IGNORECASE, so letters match either case). -/
def parseLit (c : Char) : List Char → Option (List Char)
  | x :: rest => if x.toLower = c.toLower then some rest else none
  | [] => none

/-- A whitespace character in the format matches one or more whitespace
characters of the input (`_strptime` replaces whitespace with `\s+`). -/
def parseWs : List Char → Option (List Char)
  | x :: rest => if isPySpace x then some (rest.dropWhile isPySpace) else none
  | [] => none

/-- Gregorian leap year, as in CPython's `datetime`. -/
def isLeap (y : Nat) : Bool := y % 4 = 0 && (y % 100 ≠ 0 || y % 400 = 0)

/-- Number of days in a month (`datetime._days_in_month`). -/
def daysInMonth (y m : Nat) : Nat :=
  if m = 2 then (if isLeap y then 29 else 28)
  else if m = 4 || m = 6 || m = 9 || m = 11 then 30
  else 31

/-- The `datetime` constructor's validation, for fields already bounded by
the directive regexes: year within MINYEAR..MAXYEAR, a real calendar day,
and seconds below 60 (the `%S` regex alone also admits 60 and 61, which
the constructor then rejects). -/
def dtValid (t : DT) : Bool :=
  1 ≤ t.year && t.year ≤ 9999 && 1 ≤ t.month && t.month ≤ 12 &&
    1 ≤ t.day && t.day ≤ daysInMonth t.year t.month &&
    t.hour ≤ 23 && t.minute ≤ 59 && t.second ≤ 59

/-- `%m`: two-digit values `01`–`12`, or one digit `1`–`9`. -/
def moTwo (v : Nat) : Bool := 1 ≤ v && v ≤ 12
/-- One-digit month alternative `[1-9]`. -/
def moOne (v : Nat) : Bool := 1 ≤ v && v ≤ 9
/-- `%d`: two-digit values `01`–`31`. -/
def dayTwo (v : Nat) : Bool := 1 ≤ v && v ≤ 31
/-- `%H`: two-digit values `00`–`23`. -/
def hrTwo (v : Nat) : Bool := v ≤ 23
/-- `%M`: two-digit values `00`–`59`. -/
def minTwo (v : Nat) : Bool := v ≤ 59
/-- `%S`: two-digit values `00`–`61` (leap seconds admitted by the regex,
rejected later by the constructor). -/
def secTwo (v : Nat) : Bool := v ≤ 61
/-- One-digit `\d` alternative of `%H`, `%M`, `%S`. -/
def digOne (v : Nat) : Bool := v ≤ 9

/-- Shared date part `%Y-%m-%d` of both formats. -/
def parseDatePart (cs : List Char) : Option (Nat × Nat × Nat × List Char) :=
  match parseY4 cs with
  | none => none
  | some (y, r1) =>
    match parseLit '-' r1 with
    | none => none
    | some r2 =>
      match parse2or1 moTwo moOne r2 with
      | none => none
      | some (mo, r3) =>
        match parseLit '-' r3 with
        | none => none
        | some r4 =>
          match parse2or1 dayTwo moOne r4 with
          | none => none
          | some (d, r5) => some (y, mo, d, r5)

/-- Shared time part `%H:%M:%S` of both formats. -/
def parseTimePart (cs : List Char) : Option (Nat × Nat × Nat × List Char) :=
  match parse2or1 hrTwo digOne cs with
  | none => none
  | some (h, r1) =>
    match parseLit ':' r1 with
    | none => none
    | some r2 =>
      match parse2or1 minTwo digOne r2 with
      | none => none
      | some (mi, r3) =>
        match parseLit ':' r3 with
        | none => none
        | some r4 =>
          match parse2or1 secTwo digOne r4 with
          | none => none
          | some (s, r5) => some (h, mi, s, r5)

/-- `_iso_z_to_dt` from `fits.py`:
`datetime.strptime(s, "%Y-%m-%dT%H:%M:%SZ")` — returns `none` exactly when
the Python call raises `ValueError`. -/
def iso_z_to_dt (cs : List Char) : Option DT :=
  match parseDatePart cs with
  | none => none
  | some (y, mo, d, r1) =>
    match parseLit 'T' r1 with
    | none => none
    | some r2 =>
      match parseTimePart r2 with
      | none => none
      | some (h, mi, s, r3) =>
        match parseLit 'Z' r3 with
        | none => none
        | some r4 =>
          if r4 = [] then
            let t : DT := ⟨y, mo, d, h, mi, s⟩
            if dtValid t then some t else none
          else none

/-- `_hv_dt_to_dt` from `fits.py`:
`datetime.strptime(s, "%Y-%m-%d %H:%M:%S")`. -/
def hv_dt_to_dt (cs : List Char) : Option DT :=
  match parseDatePart cs with
  | none => none
  | some (y, mo, d, r1) =>
    match parseWs r1 with
    | none => none
    | some r2 =>
      match parseTimePart r2 with
      | none => none
      | some (h, mi, s, r3) =>
        if r3 = [] then
          let t : DT := ⟨y, mo, d, h, mi, s⟩
          if dtValid t then some t else none
        else none

/-- Days before January 1 of a year, counted from year 1
(`datetime._days_before_year`). -/
def daysBeforeYear (y : Nat) : Nat :=
  let n := y - 1
  n * 365 + n / 4 - n / 100 + n / 400

/-- Days in the given year before the first of the month
(`datetime._days_before_month`). -/
def daysBeforeMonth (y m : Nat) : Nat :=
  (if m > 1 then 31 else 0) + (if m > 2 then (if isLeap y then 29 else 28) else 0) +
  (if m > 3 then 31 else 0) + (if m > 4 then 30 else 0) + (if m > 5 then 31 else 0) +
  (if m > 6 then 30 else 0) + (if m > 7 then 31 else 0) + (if m > 8 then 31 else 0) +
  (if m > 9 then 30 else 0) + (if m > 10 then 31 else 0) + (if m > 11 then 30 else 0)

/-- Proleptic-Gregorian ordinal day (`datetime.date.toordinal`). -/
def DT.toOrdinal (t : DT) : Nat := daysBeforeYear t.year + daysBeforeMonth t.year t.month + t.day

/-- The instant as seconds on a single UTC timeline; differences of this
quantity are exactly `timedelta.total_seconds()` of the corresponding
`datetime` subtraction (whole-second datetimes). -/
def DT.toSecs (t : DT) : Int :=
  (t.toOrdinal : Int) * 86400 + t.hour * 3600 + t.minute * 60 + t.second

/-- `abs((clo_dt - req_dt).total_seconds())` as an integer (both instants
are whole-second, so the float is integral and `int(dt_sec)` in the log
line equals it). -/
def deltaSecs (req clo : DT) : Int := |clo.toSecs - req.toSecs|

/-- Outcome of the tolerance block of `process_helioviewer_fits`
(lines 148–172) for one date: proceed with the download, or skip with the
tagged reason written to the failure log. -/
inductive GateResult where
  | accept
  | badRequested
  | badObserved
  | outOfTolerance (deltaSeconds : Int)
deriving DecidableEq

/-- The tolerance block itself: with no tolerance configured the block is
skipped entirely (nothing is parsed); otherwise parse the requested and
observed timestamps, short-circuiting on either failure, then compare the
absolute delta in seconds against the tolerance
(`if dt_sec > float(max_time_delta_seconds): skip`). -/
def timeGate (date closest : List Char) (tol : Option Rat) : GateResult :=
  match tol with
  | none => .accept
  | some t =>
    match iso_z_to_dt date with
    | none => .badRequested
    | some req =>
      match hv_dt_to_dt closest with
      | none => .badObserved
      | some clo =>
        let d := deltaSecs req clo
        if (d : Rat) > t then .outOfTolerance d else .accept

/-- Signals that markup text is not well-formed. -/
inductive ParseError where
  | parseError
deriving DecidableEq

/-- Characters a tag name of the modelled markup grammar may contain. -/
def isNameChar (c : Char) : Bool :=
  !(c = '<' || c = '>' || c = '/' || c = '=' || c = '"' || isPySpace c)

mutual

/-- Modelled from the spec: `MarkupParser.parse` (§6) — the concrete parser
is `xml.etree.ElementTree.fromstring`, standard-library code outside this
repository.  A recursive-descent parser for the element grammar the spec
describes (tags with optional text content and children; attributes,
comments and entity references are not modelled): `<name>text? children
tail-text?</name>` or `<name/>`.  Fuel bounds the recursion; the top level
supplies more fuel than the input length, which one opening bracket per
element makes sufficient.  Returns the parsed element and the remaining
input, or `none` when the input is malformed (for example an unterminated
tag). -/
def parseElemF : Nat → List Char → Option (Elem × List Char)
  | 0, _ => none
  | fuel + 1, cs =>
    match cs with
    | '<' :: rest =>
      let nm := rest.takeWhile isNameChar
      let r1 := rest.dropWhile isNameChar
      if nm = [] then none
      else
        match r1.dropWhile isPySpace with
        | '/' :: '>' :: r2 => some (.mk nm none [], r2)
        | '>' :: r2 =>
          let txt := r2.takeWhile (fun c => !(c = '<'))
          let r3 := r2.dropWhile (fun c => !(c = '<'))
          match parseItemsF fuel r3 with
          | none => none
          | some (kids, r4) =>
            match r4 with
            | '<' :: '/' :: r5 =>
              let nm2 := r5.takeWhile isNameChar
              let r6 := r5.dropWhile isNameChar
              match r6.dropWhile isPySpace with
              | '>' :: r7 =>
                if nm2 = nm then
                  some (.mk nm (if txt = [] then none else some txt) kids, r7)
                else none
              | _ => none
            | _ => none
        | _ => none
    | _ => none

/-- Child elements until the closing tag of the parent, each followed by
ignored tail text.  Runs out of input only on malformed markup. -/
def parseItemsF : Nat → List Char → Option (List Elem × List Char)
  | 0, _ => none
  | fuel + 1, cs =>
    match cs with
    | '<' :: '/' :: _ => some ([], cs)
    | '<' :: _ =>
      match parseElemF fuel cs with
      | none => none
      | some (e, r1) =>
        let r2 := r1.dropWhile (fun c => !(c = '<'))
        match parseItemsF fuel r2 with
        | none => none
        | some (es, r3) => some (e :: es, r3)
    | _ => none

end

/-- Modelled from the spec: the whole-document parse — a single root
element, surrounding whitespace allowed, nothing else. -/
def parseMarkup (cs : List Char) : Except ParseError Elem :=
  match parseElemF (cs.length + 1) (cs.dropWhile isPySpace) with
  | some (e, rest) => if rest.dropWhile isPySpace = [] then .ok e else .error .parseError
  | none => .error .parseError

/-- `header_xml_to_fits_header` from its textual input: parse, then
transcode the tree.  A parse failure yields the error and no record. -/
def transcodeText (cs : List Char) : Except ParseError Header :=
  match parseMarkup cs with
  | .ok e => .ok (header_xml_to_fits_header e)
  | .error err => .error err

/-- An exception value raised by an external collaborator (network,
filesystem, decoder): its description. -/
abbrev PyErr : Type := List Char

/-- Decimal digits of a natural number, as Python `str()` renders it. -/
def natChars (n : Nat) : List Char := Nat.toDigits 10 n

/-- Zero-padded two-digit field of `strftime`. -/
def pad2 (n : Nat) : List Char := if n < 10 then '0' :: natChars n else natChars n

/-- Zero-padded four-digit year of `strftime`. -/
def pad4 (n : Nat) : List Char :=
  if n < 10 then '0' :: '0' :: '0' :: natChars n
  else if n < 100 then '0' :: '0' :: natChars n
  else if n < 1000 then '0' :: natChars n
  else natChars n

/-- `dt.strftime("%Y-%m-%dT%H:%M:%SZ")` as used in the skip log line. -/
def dtFormatIsoZ (t : DT) : List Char :=
  pad4 t.year ++ "-".data ++ pad2 t.month ++ "-".data ++ pad2 t.day ++ "T".data ++
    pad2 t.hour ++ ":".data ++ pad2 t.minute ++ ":".data ++ pad2 t.second ++ "Z".data

/-- `date.replace(":", "").replace("T", "_")` — the filename stem. -/
def dateStem (date : List Char) : List Char :=
  (date.filter (fun c => !(c = ':'))).map (fun c => if c = 'T' then '_' else c)

/-- External collaborators of `process_helioviewer_fits`: the closest-image
resolver, the two payload downloads, the JP2 decoder, the filesystem sinks
and the failure log.  JP2 payloads and pixel buffers are opaque (`Nat`).
Each call either returns or raises. -/
structure FitsEnv where
  closest : List Char → Except PyErr (Option Int × Option (List Char))
  getJp2Bytes : Int → Except PyErr (Option Nat)
  getHeaderText : Int → Except PyErr (Option (List Char))
  writeHeaderTxt : List Char → List Char → Except PyErr Unit
  decodeJp2 : Nat → Except PyErr Nat
  writeFits : List Char → Nat → Header → Except PyErr Unit
  appendLog : List Char → Except PyErr Unit
  makedirs : List Char → Except PyErr Unit

/-- Scalar arguments of `process_helioviewer_fits`.  `hasLog` models
`failed_log_path` being set. -/
structure FitsCfg where
  sourceId : Nat
  outputPath : List Char
  saveHeaderTxt : Bool
  tol : Option Rat
  hasLog : Bool

/-- `_append_failed`: write the line when a log path is configured,
otherwise do nothing.  The `open`/`write` may itself raise. -/
def appendFailedF (env : FitsEnv) (cfg : FitsCfg) (line : List Char) : Except PyErr Unit :=
  if cfg.hasLog then env.appendLog line else .ok ()

/-- Common prefix `f"{date}\tsourceId={source_id}\t..."` of the log lines. -/
def logLineHead (date : List Char) (sid : Nat) : List Char :=
  date ++ "\tsourceId=".data ++ natChars sid ++ "\t".data

/-- One result-dict value of `process_helioviewer_fits`:
`{"header_txt": path | None, "fits": path | None}`. -/
def FitsEntry : Type := Option (List Char) × Option (List Char)

/-- Log a skip/failure and produce the all-`None` entry (the
`_append_failed(...); out[date] = {...}; continue` pattern). -/
def fitsSkip (env : FitsEnv) (cfg : FitsCfg) (line : List Char) :
    Except PyErr FitsEntry :=
  match appendFailedF env cfg line with
  | .error e => .error e
  | .ok _ => .ok (none, none)

/-- Body of one loop iteration of `process_helioviewer_fits` (the part
inside `try`), returning the entry assigned to `out[date]`. -/
def fitsBody (env : FitsEnv) (cfg : FitsCfg) (date : List Char) :
    Except PyErr FitsEntry :=
  match env.closest date with
  | .error e => .error e
  | .ok (imageId?, closest?) =>
    match imageId?, closest? with
    | some imageId, some closestStr =>
      match timeGate date closestStr cfg.tol with
      | .badRequested =>
        fitsSkip env cfg (logLineHead date cfg.sourceId ++ "FAIL:bad_requested_date_format".data)
      | .badObserved =>
        fitsSkip env cfg
          (logLineHead date cfg.sourceId ++ "FAIL:bad_closest_date_format\tclosest=".data ++ closestStr)
      | .outOfTolerance d =>
        fitsSkip env cfg
          (logLineHead date cfg.sourceId ++ "SKIP:closest_out_of_range\tclosest=".data ++
            (match hv_dt_to_dt closestStr with
             | some clo => dtFormatIsoZ clo
             | none => []) ++ "\tdt_sec=".data ++ natChars d.toNat)
      | .accept =>
        match env.getJp2Bytes imageId with
        | .error e => .error e
        | .ok jp2? =>
          match env.getHeaderText imageId with
          | .error e => .error e
          | .ok headerText? =>
            match jp2?, headerText? with
            | some jp2, some headerText =>
              let headerTxtPath :=
                cfg.outputPath ++ "/helioviewer_".data ++ natChars imageId.toNat ++ ".xml.txt".data
              match
                (if cfg.saveHeaderTxt then env.writeHeaderTxt headerTxtPath headerText
                 else .ok ()) with
              | .error e => .error e
              | .ok _ =>
                match env.decodeJp2 jp2 with
                | .error e => .error e
                | .ok img =>
                  match transcodeText headerText with
                  | .error _ => .error "xml.etree.ElementTree.ParseError".data
                  | .ok hdr =>
                    let fitsPath := cfg.outputPath ++ "/helioviewer_".data ++ dateStem date ++
                      "_source_".data ++ natChars cfg.sourceId ++ ".fits".data
                    match env.writeFits fitsPath img hdr with
                    | .error e => .error e
                    | .ok _ =>
                      .ok ((if cfg.saveHeaderTxt then some headerTxtPath else none), some fitsPath)
            | _, _ =>
              fitsSkip env cfg
                (logLineHead date cfg.sourceId ++ "FAIL:download_jp2_or_header\tid=".data ++
                  natChars imageId.toNat)
    | _, _ =>
      fitsSkip env cfg (logLineHead date cfg.sourceId ++ "FAIL:no_closest".data)

/-- One full loop iteration: run the body under `try`; on any exception
append the failure line (the handler's own `open` may raise, uncaught) and
assign the all-`None` entry. -/
def fitsStep (env : FitsEnv) (cfg : FitsCfg) (out : List (List Char × FitsEntry))
    (date : List Char) : Except PyErr (List (List Char × FitsEntry)) :=
  match fitsBody env cfg date with
  | .ok entry => .ok (dictSet out date entry)
  | .error e =>
    match appendFailedF env cfg (logLineHead date cfg.sourceId ++ "FAIL:exception\t".data ++ e) with
    | .error e2 => .error e2
    | .ok _ => .ok (dictSet out date (none, none))

/-- `process_helioviewer_fits` from `fits.py`: make the output directory,
then fold the per-date iteration over the requested dates. -/
def process_helioviewer_fits (env : FitsEnv) (cfg : FitsCfg) (dates : List (List Char)) :
    Except PyErr (List (List Char × FitsEntry)) :=
  match env.makedirs cfg.outputPath with
  | .error e => .error e
  | .ok _ => dates.foldlM (fitsStep env cfg) []

/-- External collaborators of `save_images_by_date_png`. -/
structure PngEnv where
  closest : List Char → Except PyErr (Option Int × Option (List Char))
  makedirs : List Char → Except PyErr Unit
  getPng : Int → Except PyErr (Option Nat)
  writePng : List Char → Nat → Except PyErr Unit
  appendLog : List Char → Except PyErr Unit

/-- Scalar arguments of `save_images_by_date_png`. -/
structure PngCfg where
  sourceId : Nat
  basePath : List Char
  tol : Option Rat
  hasLog : Bool

/-- `_append_failed` of the PNG variant. -/
def appendFailedP (env : PngEnv) (cfg : PngCfg) (line : List Char) : Except PyErr Unit :=
  if cfg.hasLog then env.appendLog line else .ok ()

/-- Log a skip/failure and produce the `None` entry (PNG variant). -/
def pngSkip (env : PngEnv) (cfg : PngCfg) (line : List Char) :
    Except PyErr (Option (List Char)) :=
  match appendFailedP env cfg line with
  | .error e => .error e
  | .ok _ => .ok none

/-- Body of one loop iteration of `save_images_by_date_png` (the part
inside `try`). -/
def pngBody (env : PngEnv) (cfg : PngCfg) (date : List Char) :
    Except PyErr (Option (List Char)) :=
  match env.closest date with
  | .error e => .error e
  | .ok (imageId?, closest?) =>
    match imageId?, closest? with
    | some imageId, some closestStr =>
      match timeGate date closestStr cfg.tol with
      | .badRequested =>
        pngSkip env cfg (logLineHead date cfg.sourceId ++ "FAIL:bad_requested_date_format".data)
      | .badObserved =>
        pngSkip env cfg
          (logLineHead date cfg.sourceId ++ "FAIL:bad_closest_date_format\tclosest=".data ++ closestStr)
      | .outOfTolerance d =>
        pngSkip env cfg
          (logLineHead date cfg.sourceId ++ "SKIP:closest_out_of_range(PNG)\tclosest=".data ++
            (match hv_dt_to_dt closestStr with
             | some clo => dtFormatIsoZ clo
             | none => []) ++ "\tdt_sec=".data ++ natChars d.toNat)
      | .accept =>
        let day := date.takeWhile (fun c => !(c = 'T'))
        let dayDir := cfg.basePath ++ "/png/".data ++ day
        match env.makedirs dayDir with
        | .error e => .error e
        | .ok _ =>
          let pngPath := dayDir ++ "/helioviewer_".data ++ dateStem date ++
            "_source_".data ++ natChars cfg.sourceId ++ ".png".data
          match env.getPng imageId with
          | .error e => .error e
          | .ok png? =>
            match png? with
            | none =>
              pngSkip env cfg
                (logLineHead date cfg.sourceId ++ "FAIL:download_png\tid=".data ++
                  natChars imageId.toNat)
            | some png =>
              match env.writePng pngPath png with
              | .error e => .error e
              | .ok _ => .ok (some pngPath)
    | _, _ =>
      pngSkip env cfg (logLineHead date cfg.sourceId ++ "FAIL:no_closest".data)

/-- One full loop iteration of the PNG variant, with the `except` handler. -/
def pngStep (env : PngEnv) (cfg : PngCfg) (out : List (List Char × Option (List Char)))
    (date : List Char) : Except PyErr (List (List Char × Option (List Char))) :=
  match pngBody env cfg date with
  | .ok entry => .ok (dictSet out date entry)
  | .error e =>
    match appendFailedP env cfg
        (logLineHead date cfg.sourceId ++ "FAIL:exception(PNG)\t".data ++ e) with
    | .error e2 => .error e2
    | .ok _ => .ok (dictSet out date none)

/-- `save_images_by_date_png` from `png.py`. -/
def save_images_by_date_png (env : PngEnv) (cfg : PngCfg) (dates : List (List Char)) :
    Except PyErr (List (List Char × Option (List Char))) :=
  dates.foldlM (pngStep env cfg) []

section DictLemmas

variable {β : Type}

theorem dictHas_iff_mem (l : List (List Char × β)) (k : List Char) :
    dictHas l k = true ↔ k ∈ l.map Prod.fst := by
  induction l with
  | nil => simp [dictHas]
  | cons a as ih =>
    simp only [dictHas, List.any_cons, Bool.or_eq_true, List.map_cons, List.mem_cons]
    rw [← dictHas]
    constructor
    · rintro (h | h)
      · exact Or.inl (of_decide_eq_true h).symm
      · exact Or.inr (ih.mp h)
    · rintro (h | h)
      · exact Or.inl (by simp [h])
      · exact Or.inr (ih.mpr h)

theorem dictGet_cons (a : List Char × β) (as : List (List Char × β)) (k : List Char) :
    dictGet (a :: as) k = if a.1 = k then some a.2 else dictGet as k := by
  by_cases h : a.1 = k
  · simp [dictGet, List.find?, h]
  · simp [dictGet, List.find?, h]

theorem dictGet_isSome_iff (l : List (List Char × β)) (k : List Char) :
    (dictGet l k).isSome = true ↔ dictHas l k = true := by
  induction l with
  | nil => simp [dictGet, dictHas, List.find?]
  | cons a as ih =>
    rw [dictGet_cons]
    by_cases h : a.1 = k
    · simp [h, dictHas]
    · simp only [if_neg h, ih, dictHas, List.any_cons, Bool.or_eq_true]
      rw [← dictHas]
      constructor
      · exact Or.inr
      · rintro (hc | hc)
        · exact absurd (by simpa using hc) h
        · exact hc

theorem dictSet_map_fst_of_has (l : List (List Char × β)) (k : List Char) (v : β)
    (h : dictHas l k = true) : (dictSet l k v).map Prod.fst = l.map Prod.fst := by
  induction l with
  | nil => simp [dictHas] at h
  | cons a as ih =>
    by_cases ha : a.1 = k
    · simp [dictSet, ha]
    · have h' : dictHas as k = true := by
        simp only [dictHas, List.any_cons, Bool.or_eq_true] at h
        rcases h with hc | hc
        · exact absurd (by simpa using hc) ha
        · exact hc
      simp [dictSet, ha, ih h']

theorem dictSet_map_fst_of_not_has (l : List (List Char × β)) (k : List Char) (v : β)
    (h : dictHas l k = false) : (dictSet l k v).map Prod.fst = l.map Prod.fst ++ [k] := by
  induction l with
  | nil => simp [dictSet]
  | cons a as ih =>
    simp only [dictHas, List.any_cons, Bool.or_eq_false_iff] at h
    have ha : ¬(a.1 = k) := by simpa using h.1
    simp [dictSet, ha, ih h.2]

theorem dictGet_dictSet_self (l : List (List Char × β)) (k : List Char) (v : β) :
    dictGet (dictSet l k v) k = some v := by
  induction l with
  | nil => simp [dictSet, dictGet_cons]
  | cons a as ih =>
    by_cases ha : a.1 = k
    · simp [dictSet, ha, dictGet_cons]
    · simp [dictSet, ha, dictGet_cons, ih]

theorem dictGet_dictSet_ne (l : List (List Char × β)) (k k' : List Char) (v : β)
    (h : k' ≠ k) : dictGet (dictSet l k v) k' = dictGet l k' := by
  have hk : ¬(k = k') := fun hc => h hc.symm
  induction l with
  | nil => simp [dictSet, dictGet, List.find?, hk]
  | cons a as ih =>
    by_cases ha : a.1 = k
    · have hak : ¬(a.1 = k') := fun hc => hk (ha ▸ hc)
      simp [dictSet, ha, dictGet_cons, hk, hak]
    · by_cases hb : a.1 = k'
      · simp [dictSet, ha, dictGet_cons, hb, h]
      · simp [dictSet, ha, dictGet_cons, hb, ih]

theorem dictSet_nodup (l : List (List Char × β)) (k : List Char) (v : β)
    (h : (l.map Prod.fst).Nodup) : ((dictSet l k v).map Prod.fst).Nodup := by
  by_cases hh : dictHas l k = true
  · rw [dictSet_map_fst_of_has l k v hh]; exact h
  · rw [dictSet_map_fst_of_not_has l k v (by simpa using hh)]
    rw [List.nodup_append]
    refine ⟨h, List.nodup_singleton k, ?_⟩
    intro a ha hb
    rcases List.mem_singleton.mp hb with rfl
    exact absurd ((dictHas_iff_mem l a).mpr ha) (by simpa using hh)

theorem dictSet_mem_values (l : List (List Char × β)) (k k' : List Char) (v v' : β)
    (h : (k', v') ∈ dictSet l k v) : (k', v') ∈ l ∨ v' = v := by
  induction l with
  | nil =>
    rcases List.mem_singleton.mp h with he
    exact Or.inr (Prod.ext_iff.mp he).2
  | cons a as ih =>
    by_cases ha : a.1 = k
    · rw [dictSet, if_pos ha] at h
      rcases List.mem_cons.mp h with he | he
      · exact Or.inr (Prod.ext_iff.mp he).2
      · exact Or.inl (List.mem_cons_of_mem a he)
    · rw [dictSet, if_neg ha] at h
      rcases List.mem_cons.mp h with he | he
      · exact Or.inl (he ▸ List.mem_cons_self a as)
      · rcases ih he with hc | hc
        · exact Or.inl (List.mem_cons_of_mem a hc)
        · exact Or.inr hc

end DictLemmas

section CharLemmas

theorem pyUpperChar_not_lower (c : Char) : (pyUpperChar c).isLower = false := by
  unfold pyUpperChar
  by_cases h : c.isLower = true
  · have hb : 97 ≤ c.toNat ∧ c.toNat ≤ 122 := by simpa [Char.isLower] using h
    rw [← Char.ofNat_toNat c]
    obtain ⟨h1, h2⟩ := hb
    interval_cases hn : c.toNat <;> decide
  · have h' : c.isLower = false := by simpa using h
    have hn : 97 ≤ c.toNat → 122 < c.toNat := by simpa [Char.isLower] using h
    have hn' : ¬(c.toNat ≥ 97 ∧ c.toNat ≤ 122) := fun hc => by have := hn hc.1; omega
    rw [Char.toUpper, if_neg hn']
    exact h'

theorem pyUpperChar_ascii (c : Char) (h : c.toNat < 128) : (pyUpperChar c).toNat < 128 := by
  unfold pyUpperChar
  by_cases hl : c.isLower = true
  · have hb : 97 ≤ c.toNat ∧ c.toNat ≤ 122 := by simpa [Char.isLower] using hl
    rw [← Char.ofNat_toNat c]
    obtain ⟨h1, h2⟩ := hb
    interval_cases hn : c.toNat <;> decide
  · have hn : 97 ≤ c.toNat → 122 < c.toNat := by simpa [Char.isLower] using hl
    have hn' : ¬(c.toNat ≥ 97 ∧ c.toNat ≤ 122) := fun hc => by have := hn hc.1; omega
    rw [Char.toUpper, if_neg hn']
    exact h

theorem digitChar_not_lower (i : Nat) (h : i < 10) : (digitChar i).isLower = false := by
  interval_cases i <;> decide

theorem digitChar_ascii (i : Nat) (h : i < 10) : (digitChar i).toNat < 128 := by
  interval_cases i <;> decide

end CharLemmas

section KeyLemmas

theorem mem_dropRightWhile (p : Char → Bool) (s : List Char) (a : Char)
    (h : a ∈ dropRightWhile p s) : a ∈ s := by
  unfold dropRightWhile at h
  rw [List.mem_reverse] at h
  exact List.mem_reverse.mp ((List.dropWhile_sublist p).mem h)

theorem mem_pyStrip (s : List Char) (a : Char) (h : a ∈ pyStrip s) : a ∈ s := by
  unfold pyStrip at h
  exact (List.dropWhile_sublist isPySpace).mem (mem_dropRightWhile _ _ _ h)

theorem mem_elemKey (e : Elem) (a : Char) (h : a ∈ elemKey e) :
    ∃ c ∈ e.tag, a = pyUpperChar c := by
  unfold elemKey at h
  have h1 : a ∈ pyStrip (pyUpper e.tag) := List.mem_of_mem_take h
  have h2 : a ∈ pyUpper e.tag := mem_pyStrip _ _ h1
  rw [pyUpper, List.mem_map] at h2
  obtain ⟨c, hc, he⟩ := h2
  exact ⟨c, hc, he.symm⟩

theorem elemKey_length (e : Elem) : (elemKey e).length ≤ 8 := by
  unfold elemKey
  calc ((pyStrip (pyUpper e.tag)).take 8).length ≤ 8 := List.length_take_le 8 _

theorem keyVariant_length (k : List Char) (i : Nat) : (keyVariant k i).length ≤ 8 := by
  unfold keyVariant
  rw [List.length_append]
  have : (k.take 7).length ≤ 7 := List.length_take_le 7 k
  simp only [List.length_singleton]
  omega

theorem elemKey_not_lower (e : Elem) : noAsciiLower (elemKey e) = true := by
  rw [noAsciiLower, List.all_eq_true]
  intro a ha
  obtain ⟨c, _, rfl⟩ := mem_elemKey e a ha
  simp [pyUpperChar_not_lower c]

theorem keyVariant_not_lower (e : Elem) (i : Nat) (h : i < 10) :
    noAsciiLower (keyVariant (elemKey e) i) = true := by
  rw [noAsciiLower, List.all_eq_true]
  intro a ha
  rcases List.mem_append.mp ha with hm | hm
  · have := elemKey_not_lower e
    rw [noAsciiLower, List.all_eq_true] at this
    exact this a (List.mem_of_mem_take hm)
  · rcases List.mem_singleton.mp hm with rfl
    simp [digitChar_not_lower i h]

theorem elemKey_ascii (e : Elem) (h : allAscii e.tag = true) : allAscii (elemKey e) = true := by
  rw [allAscii, List.all_eq_true]
  intro a ha
  obtain ⟨c, hc, rfl⟩ := mem_elemKey e a ha
  rw [allAscii, List.all_eq_true] at h
  exact decide_eq_true (pyUpperChar_ascii c (of_decide_eq_true (h c hc)))

theorem keyVariant_ascii (e : Elem) (i : Nat) (hi : i < 10) (h : allAscii e.tag = true) :
    allAscii (keyVariant (elemKey e) i) = true := by
  rw [allAscii, List.all_eq_true]
  intro a ha
  rcases List.mem_append.mp ha with hm | hm
  · have := elemKey_ascii e h
    rw [allAscii, List.all_eq_true] at this
    exact this a (List.mem_of_mem_take hm)
  · rcases List.mem_singleton.mp hm with rfl
    exact decide_eq_true (digitChar_ascii i hi)

end KeyLemmas

section TranscodeLemmas

theorem header_set_keys_of_has (hdr : Header) (k : List Char) (v : FitsValue)
    (h : hdr.hasKey k = true) : (hdr.set k v).keys = hdr.keys :=
  dictSet_map_fst_of_has _ _ _ h

theorem header_set_keys_of_not_has (hdr : Header) (k : List Char) (v : FitsValue)
    (h : hdr.hasKey k = false) : (hdr.set k v).keys = hdr.keys ++ [k] :=
  dictSet_map_fst_of_not_has _ _ _ h

/-- Case analysis of one `header_xml_to_fits_header` loop iteration: either
some key is assigned the element's coerced value — the candidate key when
it is fresh, or the first free digit variant on a collision — or (when the
candidate and all ten variants are taken) the assignment falls back on the
original colliding key. -/
theorem processElem_cases (hdr : Header) (e : Elem) :
    (∃ k, ((k = elemKey e ∧ hdr.hasKey k = false) ∨
           (∃ i, i < 10 ∧ k = keyVariant (elemKey e) i ∧ hdr.hasKey k = false ∧
             hdr.hasKey (elemKey e) = true)) ∧
      processElem hdr e = hdr.set k (parse_fits_value e.text)) ∨
    (hdr.hasKey (elemKey e) = true ∧
      (∀ i, i < 10 → hdr.hasKey (keyVariant (elemKey e) i) = true) ∧
      processElem hdr e = hdr.set (elemKey e) (parse_fits_value e.text)) := by
  by_cases h : hdr.hasKey (elemKey e) = true
  · cases hf : (List.range 10).find? (fun i => !hdr.hasKey (keyVariant (elemKey e) i)) with
    | some i =>
      left
      have hi : i < 10 := List.mem_range.mp (List.mem_of_find?_eq_some hf)
      have hp : hdr.hasKey (keyVariant (elemKey e) i) = false := by
        have := List.find?_some hf
        simpa using this
      exact ⟨keyVariant (elemKey e) i, Or.inr ⟨i, hi, rfl, hp, h⟩,
        by simp [processElem, h, hf]⟩
    | none =>
      right
      have hall : ∀ i, i < 10 → hdr.hasKey (keyVariant (elemKey e) i) = true := by
        intro i hi
        have := List.find?_eq_none.mp hf i (List.mem_range.mpr hi)
        simpa using this
      exact ⟨h, hall, by simp [processElem, h, hf]⟩
  · left
    exact ⟨elemKey e, Or.inl ⟨rfl, by simpa using h⟩, by simp [processElem, h]⟩

/-- Every iteration is an assignment of the element's coerced value to some
key. -/
theorem processElem_eq_set (hdr : Header) (e : Elem) :
    ∃ k, processElem hdr e = hdr.set k (parse_fits_value e.text) := by
  rcases processElem_cases hdr e with ⟨k, _, he⟩ | ⟨_, _, he⟩
  · exact ⟨k, he⟩
  · exact ⟨elemKey e, he⟩

/-- One iteration either keeps the key list unchanged (an overwrite) or
appends one fresh key, bounded, lowercase-free, and ASCII when the tag
is. -/
theorem processElem_keys (hdr : Header) (e : Elem) :
    (processElem hdr e).keys = hdr.keys ∨
    ∃ k, (processElem hdr e).keys = hdr.keys ++ [k] ∧ hdr.hasKey k = false ∧
      k.length ≤ 8 ∧ noAsciiLower k = true ∧
      (allAscii e.tag = true → allAscii k = true) := by
  rcases processElem_cases hdr e with ⟨k, hk, he⟩ | ⟨h1, _, he⟩
  · right
    rcases hk with ⟨rfl, hnew⟩ | ⟨i, hi, rfl, hnew, _⟩
    · exact ⟨elemKey e, by rw [he]; exact header_set_keys_of_not_has hdr _ _ hnew, hnew,
        elemKey_length e, elemKey_not_lower e, fun ha => elemKey_ascii e ha⟩
    · exact ⟨keyVariant (elemKey e) i,
        by rw [he]; exact header_set_keys_of_not_has hdr _ _ hnew, hnew,
        keyVariant_length _ i, keyVariant_not_lower e i hi,
        fun ha => keyVariant_ascii e i hi ha⟩
  · left
    rw [he]
    exact header_set_keys_of_has hdr _ _ h1

/-- The record invariant of claim C3: unique keys, at most eight
characters, no ASCII lowercase. -/
def goodKeys (hdr : Header) : Prop :=
  hdr.keys.Nodup ∧ ∀ k ∈ hdr.keys, k.length ≤ 8 ∧ noAsciiLower k = true

theorem goodKeys_processElem (hdr : Header) (e : Elem) (h : goodKeys hdr) :
    goodKeys (processElem hdr e) := by
  have hnodup : (processElem hdr e).keys.Nodup := by
    obtain ⟨k, he⟩ := processElem_eq_set hdr e
    rw [he]
    exact dictSet_nodup _ _ _ h.1
  refine ⟨hnodup, ?_⟩
  rcases processElem_keys hdr e with hk | ⟨k, hk, _, hlen, hlow, _⟩
  · intro k hm
    exact h.2 k (hk ▸ hm)
  · intro k' hm
    rw [hk] at hm
    rcases List.mem_append.mp hm with hm | hm
    · exact h.2 k' hm
    · rcases List.mem_singleton.mp hm with rfl
      exact ⟨hlen, hlow⟩

theorem goodKeys_foldl (es : List Elem) :
    ∀ hdr : Header, goodKeys hdr → goodKeys (es.foldl processElem hdr) := by
  induction es with
  | nil => exact fun hdr h => h
  | cons e es ih => exact fun hdr h => ih _ (goodKeys_processElem hdr e h)

theorem asciiKeys_processElem (hdr : Header) (e : Elem) (ht : allAscii e.tag = true)
    (h : ∀ k ∈ hdr.keys, allAscii k = true) :
    ∀ k ∈ (processElem hdr e).keys, allAscii k = true := by
  rcases processElem_keys hdr e with hk | ⟨k, hk, _, _, _, hascii⟩
  · intro k hm
    exact h k (hk ▸ hm)
  · intro k' hm
    rw [hk] at hm
    rcases List.mem_append.mp hm with hm | hm
    · exact h k' hm
    · rcases List.mem_singleton.mp hm with rfl
      exact hascii ht

theorem asciiKeys_foldl (es : List Elem) :
    ∀ hdr : Header, (∀ e ∈ es, allAscii e.tag = true) →
      (∀ k ∈ hdr.keys, allAscii k = true) →
      ∀ k ∈ (es.foldl processElem hdr).keys, allAscii k = true := by
  induction es with
  | nil => exact fun hdr _ h => h
  | cons e es ih =>
    intro hdr ht h
    exact ih _ (fun x hx => ht x (List.mem_cons_of_mem e hx))
      (asciiKeys_processElem hdr e (ht e (List.mem_cons_self e es)) h)

/-- Every value stored in the record is the coercion of some raw text. -/
theorem values_processElem (hdr : Header) (e : Elem)
    (h : ∀ p ∈ hdr.cards, ∃ u, p.2 = parse_fits_value u) :
    ∀ p ∈ (processElem hdr e).cards, ∃ u, p.2 = parse_fits_value u := by
  obtain ⟨k, he⟩ := processElem_eq_set hdr e
  intro p hp
  rw [he] at hp
  obtain ⟨k', v'⟩ := p
  rcases dictSet_mem_values hdr.cards k k' (parse_fits_value e.text) v' hp with hm | hm
  · exact h _ hm
  · exact ⟨e.text, hm⟩

theorem values_foldl (es : List Elem) :
    ∀ hdr : Header, (∀ p ∈ hdr.cards, ∃ u, p.2 = parse_fits_value u) →
      ∀ p ∈ (es.foldl processElem hdr).cards, ∃ u, p.2 = parse_fits_value u := by
  induction es with
  | nil => exact fun hdr h => h
  | cons e es ih => exact fun hdr h => ih _ (values_processElem hdr e h)

end TranscodeLemmas

section ValueLemmas

/-- The properties claim C4 asserts of every stored text value. -/
def textOk (s : List Char) : Prop :=
  allAscii s = true ∧ s.length ≤ 68 ∧ '\n' ∉ s ∧ '\r' ∉ s

theorem textOk_NA : textOk "N/A".data := by
  refine ⟨by decide, by decide, by decide, by decide⟩

theorem sanitize_textOk (v : Option (List Char)) : textOk (sanitize_fits_value v) := by
  match v with
  | none => exact textOk_NA
  | some s =>
    by_cases hs : s = []
    · rw [sanitize_fits_value, if_pos hs]
      exact textOk_NA
    · rw [sanitize_fits_value, if_neg hs]
      set body := (pyStrip (s.map (fun c => if c = '\n' || c = '\r' then ' ' else c))).filter
        (fun c => c.toNat < 128) with hbody
      refine ⟨?_, ?_, ?_, ?_⟩
      · rw [allAscii, List.all_eq_true]
        intro a ha
        have := List.mem_filter.mp (List.mem_of_mem_take ha)
        simpa using this.2
      · exact le_trans (List.length_take_le 68 body) (le_refl 68)
      · intro hmem
        have h1 := (List.mem_filter.mp (List.mem_of_mem_take hmem)).1
        have h2 := mem_pyStrip _ _ h1
        rw [List.mem_map] at h2
        obtain ⟨c, _, he⟩ := h2
        by_cases hc : (c = '\n' || c = '\r') = true
        · rw [if_pos hc] at he; exact absurd he (by decide)
        · rw [if_neg hc] at he
          simp only [Bool.or_eq_true, decide_eq_true_eq] at hc
          push_neg at hc
          exact hc.1 he
      · intro hmem
        have h1 := (List.mem_filter.mp (List.mem_of_mem_take hmem)).1
        have h2 := mem_pyStrip _ _ h1
        rw [List.mem_map] at h2
        obtain ⟨c, _, he⟩ := h2
        by_cases hc : (c = '\n' || c = '\r') = true
        · rw [if_pos hc] at he; exact absurd he (by decide)
        · rw [if_neg hc] at he
          simp only [Bool.or_eq_true, decide_eq_true_eq] at hc
          push_neg at hc
          exact hc.2 he

/-- Every text value `_parse_fits_value` can produce is `"N/A"` or a
sanitized string. -/
theorem parse_fits_value_text_shape (v : Option (List Char)) (s : List Char)
    (h : parse_fits_value v = .text s) :
    s = "N/A".data ∨ ∃ u, s = sanitize_fits_value (some u) := by
  match v with
  | none =>
    left
    rw [parse_fits_value] at h
    exact (FitsValue.text.inj h).symm
  | some v =>
    simp only [parse_fits_value] at h
    split_ifs at h with h1 h2 h3 h4
    · cases hf : pyParseFloat (pyStrip v) with
      | some q => rw [hf] at h; cases h
      | none =>
        rw [hf] at h
        right
        exact ⟨pyStrip v, (FitsValue.text.inj h).symm⟩
    · cases hf : pyParseInt (pyStrip v) with
      | some n => rw [hf] at h; cases h
      | none =>
        rw [hf] at h
        right
        exact ⟨pyStrip v, (FitsValue.text.inj h).symm⟩

theorem parse_fits_value_textOk (v : Option (List Char)) (s : List Char)
    (h : parse_fits_value v = .text s) : textOk s := by
  rcases parse_fits_value_text_shape v s h with rfl | ⟨u, rfl⟩
  · exact textOk_NA
  · exact sanitize_textOk (some u)

end ValueLemmas

/-- Claim C4: every text value stored by the transcoder — for any input
tree, however long or non-ASCII its text content — is pure ASCII, at most
68 characters (equivalently bytes, being ASCII), and free of newline and
carriage-return characters. -/
theorem claim4_text_values (t : Elem) (k s : List Char)
    (h : (k, FitsValue.text s) ∈ (header_xml_to_fits_header t).cards) :
    allAscii s = true ∧ s.length ≤ 68 ∧ '\n' ∉ s ∧ '\r' ∉ s := by
  have hv := values_foldl t.iterList ⟨[]⟩
    (fun p hp => absurd hp (List.not_mem_nil p)) (k, .text s) h
  obtain ⟨u, hu⟩ := hv
  exact parse_fits_value_textOk u s hu.symm

theorem claim4_witness :
    allAscii "N/A".data = true ∧ ("N/A".data).length ≤ 68 ∧
      '\n' ∉ "N/A".data ∧ '\r' ∉ "N/A".data :=
  claim4_text_values (.mk "a".data none []) "A".data "N/A".data (by decide)

/-- The markup document of the end-to-end scenario:
`<hv><a>3.14</a><a>7</a><date>2014-01-01 23:59:59</date></hv>`. -/
def hvScenarioTree : Elem :=
  .mk "hv".data none
    [.mk "a".data (some "3.14".data) [],
     .mk "a".data (some "7".data) [],
     .mk "date".data (some "2014-01-01 23:59:59".data) []]

/-- Claim C8: the scenario document transcodes to a record with exactly the
four keys HV, A, A0, DATE in that order, with A ↦ Float(3.14),
A0 ↦ Integer(7), DATE ↦ Text("2014-01-01 23:59:59"); the root contributes
the key HV because the traversal is pre-order including the root. -/
theorem claim8_end_to_end :
    header_xml_to_fits_header hvScenarioTree =
      ⟨[("HV".data, .text "N/A".data),
        ("A".data, .float ((157 : Rat) / 50)),
        ("A0".data, .int 7),
        ("DATE".data, .text "2014-01-01 23:59:59".data)]⟩ := by
  have h : ratOfParts 314 2 0 = (157 : Rat) / 50 := by norm_num [ratOfParts]
  rw [← h]
  rfl

/-- Claim C5: the coercer maps an absent field to Text("N/A"); any input
whose trimmed lowercase form is "nan", "null", "n/a" or empty to
Integer(0); "inf"/"+inf" to Float(1.0e9); "-inf" to Float(-1.0e9) — in
each case before any numeric parse is attempted (the sentinel branches do
not consult the numeric parsers). -/
theorem claim5_sentinels :
    parse_fits_value none = .text "N/A".data
    ∧ (∀ v, (pyLower (pyStrip v) = "nan".data ∨ pyLower (pyStrip v) = "null".data ∨
        pyLower (pyStrip v) = "n/a".data ∨ pyLower (pyStrip v) = []) →
        parse_fits_value (some v) = .int 0)
    ∧ (∀ v, (pyLower (pyStrip v) = "inf".data ∨ pyLower (pyStrip v) = "+inf".data) →
        parse_fits_value (some v) = .float 1000000000)
    ∧ (∀ v, pyLower (pyStrip v) = "-inf".data → parse_fits_value (some v) = .float (-1000000000)) := by
  refine ⟨rfl, ?_, ?_, ?_⟩
  · intro v h
    rcases h with h | h | h | h <;> simp [parse_fits_value, h]
  · intro v h
    rcases h with h | h <;> simp [parse_fits_value, h]
  · intro v h
    simp [parse_fits_value, h]

theorem claim5_witness :
    parse_fits_value none = .text "N/A".data
    ∧ parse_fits_value (some " NaN ".data) = .int 0
    ∧ parse_fits_value (some "+Inf".data) = .float 1000000000
    ∧ parse_fits_value (some "-inf".data) = .float (-1000000000) :=
  ⟨claim5_sentinels.1,
   claim5_sentinels.2.1 " NaN ".data (by decide),
   claim5_sentinels.2.2.1 "+Inf".data (by decide),
   claim5_sentinels.2.2.2 "-inf".data (by decide)⟩

/-- Claim C6: for non-sentinel input, the coercer attempts a float parse
exactly when the trimmed text contains `.` or `e`/`E` and an integer parse
otherwise; a successful parse yields the corresponding Float/Integer, and
a failed parse falls back to the sanitized text (newlines and carriage
returns replaced by spaces, trimmed, non-ASCII dropped, truncated to 68). -/
theorem claim6_numeric_fallback :
    ∀ v : List Char,
      pyLower (pyStrip v) ≠ "nan".data → pyLower (pyStrip v) ≠ "null".data →
      pyLower (pyStrip v) ≠ "n/a".data → pyLower (pyStrip v) ≠ [] →
      pyLower (pyStrip v) ≠ "inf".data → pyLower (pyStrip v) ≠ "+inf".data →
      pyLower (pyStrip v) ≠ "-inf".data →
      ((((pyStrip v).contains '.' || (pyLower (pyStrip v)).contains 'e') = true →
          (∀ q, pyParseFloat (pyStrip v) = some q → parse_fits_value (some v) = .float q)
          ∧ (pyParseFloat (pyStrip v) = none →
              parse_fits_value (some v) = .text (sanitize_fits_value (some (pyStrip v)))))
       ∧ (((pyStrip v).contains '.' || (pyLower (pyStrip v)).contains 'e') = false →
          (∀ n, pyParseInt (pyStrip v) = some n → parse_fits_value (some v) = .int n)
          ∧ (pyParseInt (pyStrip v) = none →
              parse_fits_value (some v) = .text (sanitize_fits_value (some (pyStrip v)))))) := by
  intro v h1 h2 h3 h4 h5 h6 h7
  have hstep : parse_fits_value (some v) =
      (if ((pyStrip v).contains '.' || (pyLower (pyStrip v)).contains 'e') = true then
        (match pyParseFloat (pyStrip v) with
         | some q => FitsValue.float q
         | none => FitsValue.text (sanitize_fits_value (some (pyStrip v))))
       else
        (match pyParseInt (pyStrip v) with
         | some n => FitsValue.int n
         | none => FitsValue.text (sanitize_fits_value (some (pyStrip v))))) := by
    simp only [parse_fits_value]
    rw [if_neg (by simp [h1, h2, h3, h4]), if_neg (by simp [h5, h6]), if_neg h7]
  constructor
  · intro hde
    rw [hstep, if_pos hde]
    constructor
    · intro q hq
      rw [hq]
    · intro hq
      rw [hq]
  · intro hde
    rw [hstep, if_neg (by rw [hde]; exact Bool.false_ne_true)]
    constructor
    · intro n hn
      rw [hn]
    · intro hn
      rw [hn]

theorem claim6_witness :
    parse_fits_value (some "3.14".data) = .float ((157 : Rat) / 50)
    ∧ parse_fits_value (some "12,5".data) = .text "12,5".data
    ∧ parse_fits_value (some "7".data) = .int 7 := by
  have c := claim6_numeric_fallback "3.14".data (by decide) (by decide) (by decide)
    (by decide) (by decide) (by decide) (by decide)
  have c2 := claim6_numeric_fallback "12,5".data (by decide) (by decide) (by decide)
    (by decide) (by decide) (by decide) (by decide)
  have c3 := claim6_numeric_fallback "7".data (by decide) (by decide) (by decide)
    (by decide) (by decide) (by decide) (by decide)
  refine ⟨?_, ?_, ?_⟩
  · have hf : pyParseFloat (pyStrip "3.14".data) = some ((157 : Rat) / 50) := by
      have hp : floatParts (pyStrip "3.14".data) = some (314, 2, 0) := by decide
      simp [pyParseFloat, hp, ratOfParts]
      norm_num
    exact (c.1 (by decide)).1 _ hf
  · have := (c2.2 (by decide)).2 (by decide)
    simpa using this
  · have := (c3.2 (by decide)).1 7 (by decide)
    simpa using this

/-- Claim C2: with a tolerance configured the gate accepts exactly when the
absolute requested/observed difference in seconds is within the tolerance,
and every rejection carries that numeric delta; the spec's example rejects
with delta 11; equal instants pass a zero tolerance; and with no tolerance
every pair of instants is accepted. -/
theorem claim2_proximity_gate :
    (∀ rs os, timeGate rs os none = .accept)
    ∧ (∀ rs os req clo (t : Rat), iso_z_to_dt rs = some req → hv_dt_to_dt os = some clo →
        ((timeGate rs os (some t) = .accept ↔ ((deltaSecs req clo : Int) : Rat) ≤ t)
         ∧ (¬(((deltaSecs req clo : Int) : Rat) ≤ t) →
             timeGate rs os (some t) = .outOfTolerance (deltaSecs req clo))))
    ∧ timeGate "2014-01-01T23:59:59Z".data "2014-01-02 00:00:10".data (some 5)
        = .outOfTolerance 11
    ∧ (∀ rs os req, iso_z_to_dt rs = some req → hv_dt_to_dt os = some req →
        timeGate rs os (some 0) = .accept) := by
  refine ⟨fun rs os => rfl, ?_, by decide, ?_⟩
  · intro rs os req clo t hr ho
    have hg : timeGate rs os (some t) =
        (if ((deltaSecs req clo : Int) : Rat) > t then
          GateResult.outOfTolerance (deltaSecs req clo) else .accept) := by
      simp only [timeGate, hr, ho]
    by_cases hc : ((deltaSecs req clo : Int) : Rat) > t
    · rw [hg, if_pos hc]
      constructor
      · constructor
        · intro habs
          cases habs
        · intro hle
          exact absurd hle (not_le.mpr hc)
      · intro _
        rfl
    · rw [hg, if_neg hc]
      constructor
      · constructor
        · intro _
          exact not_lt.mp hc
        · intro _
          rfl
      · intro hn
        exact absurd (not_lt.mp hc) hn
  · intro rs os req hr ho
    have hz : deltaSecs req req = 0 := by
      simp [deltaSecs]
    have hg : timeGate rs os (some 0) =
        (if ((deltaSecs req req : Int) : Rat) > 0 then
          GateResult.outOfTolerance (deltaSecs req req) else .accept) := by
      simp only [timeGate, hr, ho]
    rw [hg, if_neg (by rw [hz]; norm_num)]

theorem claim2_witness :
    timeGate "2014-01-01T00:00:00Z".data "2014-01-01 00:00:07".data (some 10) = .accept
    ∧ timeGate "2014-01-01T00:00:00Z".data "2014-01-01 00:00:07".data (some 3)
        = .outOfTolerance 7
    ∧ timeGate "2014-01-01T00:00:00Z".data "2014-01-01 00:00:00".data (some 0) = .accept := by
  have h := claim2_proximity_gate.2.1 "2014-01-01T00:00:00Z".data "2014-01-01 00:00:07".data
    ⟨2014, 1, 1, 0, 0, 0⟩ ⟨2014, 1, 1, 0, 0, 7⟩
  refine ⟨?_, ?_, ?_⟩
  · exact ((h 10 (by decide) (by decide)).1).mpr (by norm_num [deltaSecs, DT.toSecs, DT.toOrdinal])
  · have hd : deltaSecs ⟨2014, 1, 1, 0, 0, 0⟩ ⟨2014, 1, 1, 0, 0, 7⟩ = 7 := by decide
    have := (h 3 (by decide) (by decide)).2 (by rw [hd]; norm_num)
    rwa [hd] at this
  · exact claim2_proximity_gate.2.2.2 "2014-01-01T00:00:00Z".data "2014-01-01 00:00:00".data
      ⟨2014, 1, 1, 0, 0, 0⟩ (by decide) (by decide)

/-- A concrete environment whose resolver always finds a match and whose
collaborators all succeed. -/
def c7Env : FitsEnv where
  closest := fun _ => .ok (some 1, some "2014-01-02 00:00:10".data)
  getJp2Bytes := fun _ => .ok (some 0)
  getHeaderText := fun _ => .ok (some "<hv></hv>".data)
  writeHeaderTxt := fun _ _ => .ok ()
  decodeJp2 := fun n => .ok n
  writeFits := fun _ _ _ => .ok ()
  appendLog := fun _ => .ok ()
  makedirs := fun _ => .ok ()

/-- Configuration with NO tolerance configured. -/
def c7Cfg : FitsCfg where
  sourceId := 14
  outputPath := "out".data
  saveHeaderTxt := true
  tol := none
  hasLog := false

/-- Claim C7 (corrected): when the tolerance is absent the pipeline parses
nothing — an unparseable requested timestamp is not rejected.  With the
resolver returning a match, the date "garbage" (which fails the strict
parse) sails through the gate and the iteration produces a full success
entry, not a `BadRequestedFormat` rejection. -/
theorem claim7_counterexample :
    iso_z_to_dt "garbage".data = none
    ∧ timeGate "garbage".data "2014-01-02 00:00:10".data none = .accept
    ∧ fitsBody c7Env c7Cfg "garbage".data
        = .ok (some "out/helioviewer_1.xml.txt".data,
               some "out/helioviewer_garbage_source_14.fits".data) := by
  refine ⟨by decide, by decide, by rfl⟩

/-- Claim C7 (amended): when a tolerance is present, the pipeline parses
the requested timestamp with `strptime("%Y-%m-%dT%H:%M:%SZ")` and the
observed timestamp with `strptime("%Y-%m-%d %H:%M:%S")` (both UTC,
whole-second; strptime accepts 1-or-2-digit month/day/hour/minute/second
fields alongside the zero-padded forms, requires a 4-digit year and the
literal separators, and validates the calendar date); a requested-side
parse failure short-circuits to the BadRequestedFormat rejection, an
observed-side failure to BadObservedFormat, and acceptance is only
produced after both parses succeed.  When the tolerance is absent, no
parsing occurs and no format rejection is produced. -/
theorem claim7_amended :
    (∀ date clo (t : Rat), iso_z_to_dt date = none →
        timeGate date clo (some t) = .badRequested)
    ∧ (∀ date clo (t : Rat) req, iso_z_to_dt date = some req → hv_dt_to_dt clo = none →
        timeGate date clo (some t) = .badObserved)
    ∧ (∀ date clo (t : Rat), timeGate date clo (some t) = .accept →
        (∃ req, iso_z_to_dt date = some req) ∧ (∃ obs, hv_dt_to_dt clo = some obs))
    ∧ (∀ date clo, timeGate date clo none = .accept)
    ∧ iso_z_to_dt "2014-1-02T03:04:05Z".data = some ⟨2014, 1, 2, 3, 4, 5⟩
    ∧ iso_z_to_dt "2014-01-01T23:59:59Z".data = some ⟨2014, 1, 1, 23, 59, 59⟩
    ∧ hv_dt_to_dt "2014-01-02 00:00:10".data = some ⟨2014, 1, 2, 0, 0, 10⟩
    ∧ iso_z_to_dt "2014-02-30T00:00:00Z".data = none := by
  refine ⟨?_, ?_, ?_, fun _ _ => rfl, by decide, by decide, by decide, by decide⟩
  · intro date clo t hr
    simp only [timeGate, hr]
  · intro date clo t req hr ho
    simp only [timeGate, hr, ho]
  · intro date clo t hacc
    rw [timeGate] at hacc
    cases hr : iso_z_to_dt date with
    | none => rw [hr] at hacc; cases hacc
    | some req =>
      rw [hr] at hacc
      cases ho : hv_dt_to_dt clo with
      | none => rw [ho] at hacc; cases hacc
      | some obs => exact ⟨⟨req, rfl⟩, ⟨obs, rfl⟩⟩

theorem claim7_witness :
    timeGate "garbage".data "x".data (some 5) = .badRequested
    ∧ timeGate "2014-01-01T23:59:59Z".data "x".data (some 5) = .badObserved
    ∧ ((∃ req, iso_z_to_dt "2014-01-01T23:59:59Z".data = some req)
       ∧ (∃ obs, hv_dt_to_dt "2014-01-01 23:59:59".data = some obs)) :=
  ⟨claim7_amended.1 "garbage".data "x".data 5 (by decide),
   claim7_amended.2.1 "2014-01-01T23:59:59Z".data "x".data 5 ⟨2014, 1, 1, 23, 59, 59⟩
     (by decide) (by decide),
   claim7_amended.2.2.1 "2014-01-01T23:59:59Z".data "2014-01-01 23:59:59".data 5 (by decide)⟩

theorem fitsSkip_ok (env : FitsEnv) (cfg : FitsCfg) (line : List Char) (entry : FitsEntry)
    (h : fitsSkip env cfg line = .ok entry) : entry = (none, none) := by
  unfold fitsSkip at h
  cases ha : appendFailedF env cfg line with
  | error e => rw [ha] at h; cases h
  | ok u => rw [ha] at h; exact (Except.ok.inj h).symm

/-- Every entry a successful `process_helioviewer_fits` iteration body can
produce: the all-`None` failure entry, or a success entry whose `fits`
component is a path. -/
theorem fitsBody_ok_shape (env : FitsEnv) (cfg : FitsCfg) (date : List Char) (entry : FitsEntry)
    (h : fitsBody env cfg date = .ok entry) :
    entry = (none, none) ∨ ∃ ht fp, entry = (ht, some fp) := by
  simp only [fitsBody] at h
  repeat' split at h
  all_goals try cases h
  all_goals try exact Or.inl (fitsSkip_ok _ _ _ _ h)
  all_goals try exact Or.inr ⟨_, _, (Except.ok.inj h).symm⟩
  all_goals try exact Or.inr ⟨_, _, rfl⟩

theorem appendFailedF_ok (env : FitsEnv) (cfg : FitsCfg) (line : List Char)
    (hlog : ∀ l, env.appendLog l = .ok ()) : appendFailedF env cfg line = .ok () := by
  unfold appendFailedF
  split
  · exact hlog _
  · rfl

theorem fitsStep_ok (env : FitsEnv) (cfg : FitsCfg) (hlog : ∀ l, env.appendLog l = .ok ()) :
    ∀ out date, ∃ v, fitsStep env cfg out date = .ok (dictSet out date v) ∧
      (v = (none, none) ∨ ∃ ht fp, v = (ht, some fp)) := by
  intro out date
  cases hb : fitsBody env cfg date with
  | ok entry =>
    exact ⟨entry, by simp [fitsStep, hb], fitsBody_ok_shape env cfg date entry hb⟩
  | error e =>
    refine ⟨(none, none), ?_, Or.inl rfl⟩
    have ha := appendFailedF_ok env cfg
      (logLineHead date cfg.sourceId ++ "FAIL:exception\t".data ++ e) hlog
    simp only [fitsStep, hb]
    rw [ha]

theorem pngSkip_ok (env : PngEnv) (cfg : PngCfg) (line : List Char) (entry : Option (List Char))
    (h : pngSkip env cfg line = .ok entry) : entry = none := by
  unfold pngSkip at h
  cases ha : appendFailedP env cfg line with
  | error e => rw [ha] at h; cases h
  | ok u => rw [ha] at h; exact (Except.ok.inj h).symm

theorem pngBody_ok_shape (env : PngEnv) (cfg : PngCfg) (date : List Char)
    (entry : Option (List Char)) (h : pngBody env cfg date = .ok entry) :
    entry = none ∨ ∃ p, entry = some p := by
  simp only [pngBody] at h
  repeat' split at h
  all_goals try cases h
  all_goals try exact Or.inl (pngSkip_ok _ _ _ _ h)
  all_goals try exact Or.inr ⟨_, (Except.ok.inj h).symm⟩
  all_goals try exact Or.inr ⟨_, rfl⟩

theorem appendFailedP_ok (env : PngEnv) (cfg : PngCfg) (line : List Char)
    (hlog : ∀ l, env.appendLog l = .ok ()) : appendFailedP env cfg line = .ok () := by
  unfold appendFailedP
  split
  · exact hlog _
  · rfl

theorem pngStep_ok (env : PngEnv) (cfg : PngCfg) (hlog : ∀ l, env.appendLog l = .ok ()) :
    ∀ out date, ∃ v, pngStep env cfg out date = .ok (dictSet out date v) ∧
      (v = none ∨ ∃ p, v = some p) := by
  intro out date
  cases hb : pngBody env cfg date with
  | ok entry =>
    exact ⟨entry, by simp [pngStep, hb], pngBody_ok_shape env cfg date entry hb⟩
  | error e =>
    refine ⟨none, ?_, Or.inl rfl⟩
    have ha := appendFailedP_ok env cfg
      (logLineHead date cfg.sourceId ++ "FAIL:exception(PNG)\t".data ++ e) hlog
    simp only [pngStep, hb]
    rw [ha]

/-- Shape of the fold both pipeline loops share: when every iteration is a
dict assignment of a well-shaped value, the whole fold succeeds, keeps the
keys unique, reaches exactly the requested keys, and stores only
well-shaped or pre-existing values. -/
theorem foldM_dict_props {β : Type} (good : β → Prop)
    (step : List (List Char × β) → List Char → Except PyErr (List (List Char × β)))
    (hstep : ∀ out date, ∃ v, step out date = .ok (dictSet out date v) ∧ good v) :
    ∀ (dates : List (List Char)) (out : List (List Char × β)),
      ∃ d, dates.foldlM step out = .ok d
        ∧ ((out.map Prod.fst).Nodup → (d.map Prod.fst).Nodup)
        ∧ (∀ k, (dictGet d k).isSome = true ↔ ((dictGet out k).isSome = true ∨ k ∈ dates))
        ∧ (∀ k v, dictGet d k = some v → dictGet out k = some v ∨ good v) := by
  intro dates
  induction dates with
  | nil =>
    intro out
    exact ⟨out, rfl, fun h => h, fun k => by simp, fun k v hv => Or.inl hv⟩
  | cons date dates ih =>
    intro out
    obtain ⟨v, hs, hg⟩ := hstep out date
    obtain ⟨d, hd, hnodup, hmem, hval⟩ := ih (dictSet out date v)
    refine ⟨d, ?_, ?_, ?_, ?_⟩
    · rw [List.foldlM_cons, hs]
      exact hd
    · intro hnd
      exact hnodup (dictSet_nodup out date v hnd)
    · intro k
      rw [hmem k]
      by_cases hk : k = date
      · subst hk
        have hself : dictGet (dictSet out k v) k = some v := dictGet_dictSet_self out k v
        simp [hself, List.mem_cons]
      · rw [dictGet_dictSet_ne out date k v hk]
        simp [List.mem_cons, hk]
    · intro k v' hv'
      rcases hval k v' hv' with hc | hc
      · by_cases hk : k = date
        · subst hk
          rw [dictGet_dictSet_self out k v] at hc
          exact Or.inr ((Option.some.inj hc) ▸ hg)
        · rw [dictGet_dictSet_ne out date k v hk] at hc
          exact Or.inl hc
      · exact Or.inr hc

/-- An environment whose resolver raises and whose failure-log append also
raises (for example, the log path is unwritable). -/
def c10Env : FitsEnv where
  closest := fun _ => .error "requests.ConnectionError".data
  getJp2Bytes := fun _ => .ok none
  getHeaderText := fun _ => .ok none
  writeHeaderTxt := fun _ _ => .ok ()
  decodeJp2 := fun n => .ok n
  writeFits := fun _ _ _ => .ok ()
  appendLog := fun _ => .error "OSError".data
  makedirs := fun _ => .ok ()

/-- Configuration with a failure log configured. -/
def c10Cfg : FitsCfg where
  sourceId := 14
  outputPath := "out".data
  saveHeaderTxt := true
  tol := none
  hasLog := true

/-- Claim C10 (corrected): the per-date `except` handler itself calls
`_append_failed`, whose `open` is not protected by any handler — when the
resolver raises and the log append then raises too, the exception
propagates out of `process_helioviewer_fits` and the returned dict (and
its entry for the requested date) never materialises. -/
theorem claim10_counterexample :
    process_helioviewer_fits c10Env c10Cfg ["2014-01-01T00:00:00Z".data]
      = .error "OSError".data := by
  rfl

/-- Claim C10 (amended): provided the failure-log sink never raises (in
particular whenever no `failed_log_path` is configured) and, for the FITS
variant, the initial output-directory creation succeeds, both pipelines
return a dict for any behaviour of the remaining collaborators — resolver,
downloads, decoder, filesystem sinks may raise freely per date — with
exactly one entry per distinct requested date (duplicates collapse), every
failed or skipped date mapped to `None`-valued outputs, and every other
entry a success entry carrying an output path. -/
theorem claim10_amended :
    (∀ (env : FitsEnv) (cfg : FitsCfg) (dates : List (List Char)),
       (∀ l, env.appendLog l = .ok ()) → env.makedirs cfg.outputPath = .ok () →
       ∃ d, process_helioviewer_fits env cfg dates = .ok d
         ∧ (d.map Prod.fst).Nodup
         ∧ (∀ date, (dictGet d date).isSome = true ↔ date ∈ dates)
         ∧ (∀ date v, dictGet d date = some v →
              v = (none, none) ∨ ∃ ht fp, v = (ht, some fp)))
    ∧ (∀ (env : PngEnv) (cfg : PngCfg) (dates : List (List Char)),
       (∀ l, env.appendLog l = .ok ()) →
       ∃ d, save_images_by_date_png env cfg dates = .ok d
         ∧ (d.map Prod.fst).Nodup
         ∧ (∀ date, (dictGet d date).isSome = true ↔ date ∈ dates)
         ∧ (∀ date v, dictGet d date = some v → v = none ∨ ∃ p, v = some p)) := by
  constructor
  · intro env cfg dates hlog hmk
    obtain ⟨d, hd, hnodup, hmem, hval⟩ :=
      foldM_dict_props (fun v => v = (none, none) ∨ ∃ ht fp, v = (ht, some fp))
        (fitsStep env cfg) (fitsStep_ok env cfg hlog) dates []
    refine ⟨d, ?_, hnodup List.nodup_nil, ?_, ?_⟩
    · rw [process_helioviewer_fits, hmk]
      exact hd
    · intro date
      rw [hmem date]
      simp [dictGet, List.find?]
    · intro date v hv
      rcases hval date v hv with hc | hc
      · rw [show dictGet ([] : List (List Char × FitsEntry)) date = none from rfl] at hc
        cases hc
      · exact hc
  · intro env cfg dates hlog
    obtain ⟨d, hd, hnodup, hmem, hval⟩ :=
      foldM_dict_props (fun v => v = none ∨ ∃ p, v = some p)
        (pngStep env cfg) (pngStep_ok env cfg hlog) dates []
    refine ⟨d, hd, hnodup List.nodup_nil, ?_, ?_⟩
    · intro date
      rw [hmem date]
      simp [dictGet, List.find?]
    · intro date v hv
      rcases hval date v hv with hc | hc
      · rw [show dictGet ([] : List (List Char × Option (List Char))) date = none from rfl] at hc
        cases hc
      · exact hc

/-- An all-succeeding environment for the witness instantiation. -/
def c10OkEnv : FitsEnv where
  closest := fun _ => .ok (some 1, some "2014-01-02 00:00:10".data)
  getJp2Bytes := fun _ => .ok (some 0)
  getHeaderText := fun _ => .ok (some "<hv></hv>".data)
  writeHeaderTxt := fun _ _ => .ok ()
  decodeJp2 := fun n => .ok n
  writeFits := fun _ _ _ => .ok ()
  appendLog := fun _ => .ok ()
  makedirs := fun _ => .ok ()

/-- Configuration for the witness instantiation: no tolerance, no log. -/
def c10OkCfg : FitsCfg where
  sourceId := 14
  outputPath := "out".data
  saveHeaderTxt := true
  tol := none
  hasLog := false

theorem claim10_witness :
    ∃ d, process_helioviewer_fits c10OkEnv c10OkCfg
        ["2014-01-01T00:00:00Z".data, "garbage".data, "2014-01-01T00:00:00Z".data] = .ok d
      ∧ (d.map Prod.fst).Nodup
      ∧ (∀ date, (dictGet d date).isSome = true ↔
          date ∈ ["2014-01-01T00:00:00Z".data, "garbage".data, "2014-01-01T00:00:00Z".data])
      ∧ (∀ date v, dictGet d date = some v →
          v = (none, none) ∨ ∃ ht fp, v = (ht, some fp)) :=
  claim10_amended.1 c10OkEnv c10OkCfg
    ["2014-01-01T00:00:00Z".data, "garbage".data, "2014-01-01T00:00:00Z".data]
    (fun _ => rfl) rfl

section CheckedTranscodeLemmas

end CheckedTranscodeLemmas

